import Mathlib

/-!
Verification development for the feed-fetch-and-normalize core of
`arxiv_summarizer.py`.

The Python source is shallowly embedded as follows.

* The network call inside `fetch_arxiv_results` (`urllib.request.urlopen`
  followed by `read` and `decode`) is modelled by an oracle
  `net : String -> Except String String` mapping the request URL either to the
  decoded response body or to the textual description of the raised exception.
* The summarization pipeline (an opaque pre-trained model) is modelled by an
  oracle `summarizer : ModelCall -> String`; a `ModelCall` records the text and
  the keyword arguments the code passes to the pipeline.
* An XML feed is modelled by `Feed`: the list of `atom:entry` nodes in document
  order. Each node lookup that `ElementTree` can answer with `None` is an
  `Option`; the `.text` of a present element is itself an `Option String`
  because an empty element has `text == None`.
* Python exceptions are modelled by `Option`: a function that can raise returns
  `none` exactly on the inputs where the Python raises.
* Python string comparison is code-point lexicographic; `charListLt` implements
  it structurally (the core function `String.ltb` does not reduce in the kernel) and is
  proved equivalent to the Mathlib order on `String`.
* `pl.DataFrame(entries).sort(published, descending=True)` sorts the records
  by the `published` key, descending, with `None` values grouped first
  (`nulls_last` defaults to false) and no stability guarantee
  (`maintain_order` defaults to false).  The executable embedding
  `sortRecords` is one implementation of that contract; the contract itself is
  `polarsSortSpec`.  On an empty entry list `pl.DataFrame([])` has no columns
  at all, so `sort(published)` raises `ColumnNotFoundError`; this is
  modelled by `polarsSortByPublishedDesc` returning `none` on `[]`.
-/

namespace ArxivSummarizer

/-- Code-point lexicographic comparison of character lists, the order Python
uses to compare `str` values. Structural, so it evaluates in the kernel. -/
def charListLt : List Char → List Char → Bool
  | [], [] => false
  | [], _ :: _ => true
  | _ :: _, [] => false
  | a :: as, b :: bs => if a < b then true else if b < a then false else charListLt as bs

/-- Lexicographic `<` on strings (Python `x < y` on `str`). -/
def strLt (x y : String) : Bool := charListLt x.data y.data

/-- Python `str.strip()`: drop whitespace from both ends. Structural stand-in
for `String.trim`, which does not reduce in the kernel. -/
def pyStrip (s : String) : String :=
  String.mk (List.reverse (List.dropWhile Char.isWhitespace
    (List.reverse (List.dropWhile Char.isWhitespace s.data))))

/-- UTF-8 encoding of one character, as byte values. -/
def utf8Bytes (c : Char) : List Nat :=
  let n := c.toNat
  if n < 0x80 then [n]
  else if n < 0x800 then [0xC0 + n / 0x40, 0x80 + n % 0x40]
  else if n < 0x10000 then [0xE0 + n / 0x1000, 0x80 + n / 0x40 % 0x40, 0x80 + n % 0x40]
  else [0xF0 + n / 0x40000, 0x80 + n / 0x1000 % 0x40, 0x80 + n / 0x40 % 0x40, 0x80 + n % 0x40]

/-- Upper-case hexadecimal digit, as used by `urllib.parse.quote_plus`. -/
def hexDigit (n : Nat) : Char := if n < 10 then Char.ofNat (48 + n) else Char.ofNat (55 + n)

/-- Percent-encoding of one byte value. -/
def percentEncode (b : Nat) : String := String.mk ['%', hexDigit (b / 16), hexDigit (b % 16)]

/-- Characters `urllib.parse.quote_plus` never quotes. -/
def isSafeChar (c : Char) : Bool := c.isAlphanum || c == '_' || c == '.' || c == '-' || c == '~'

/-- Python `urllib.parse.quote_plus`: spaces become `+`, unsafe characters are
percent-encoded byte-wise. -/
def quotePlus (s : String) : String :=
  String.join (s.data.map fun c =>
    if isSafeChar c then String.singleton c
    else if c == ' ' then "+"
    else String.join ((utf8Bytes c).map percentEncode))

/-- Python `urllib.parse.urlencode`: `key=value` pairs joined by `&`, both sides
quoted via `quote_plus`. -/
def urlencode (params : List (String × String)) : String :=
  String.intercalate "&" (params.map fun p => quotePlus p.1 ++ "=" ++ quotePlus p.2)

/-- The request URL built by `fetch_arxiv_results` (source lines 39-53). -/
def buildUrl (search_term : String) (start max_results : Nat) : String :=
  "http://export.arxiv.org/api/query?" ++
    urlencode [("search_query", "all:" ++ search_term),
               ("start", toString start),
               ("max_results", toString max_results)]

/-- The function `fetch_arxiv_results` (source lines 27-61): on success return the decoded
body verbatim, on any exception return the f-string
`"An error occurred: {e}"`. `net` models the `urlopen`/`read`/`decode` chain. -/
def fetch_arxiv_results (net : String → Except String String)
    (search_term : String) (start max_results : Nat) : String :=
  match net (buildUrl search_term start max_results) with
  | Except.ok data => data
  | Except.error e => "An error occurred: " ++ e

/-- One invocation of the cached summarization pipeline: the text plus the
keyword arguments `max_length`, `min_length`, `truncation` the code passes. -/
structure ModelCall where
  text : String
  max_length : Nat
  min_length : Nat
  truncate : Bool

/-- The function `summarize_text` (source lines 80-95); defaults in the source are
`max_length=140`, `min_length=30`. `summarizer` is the opaque model; its
result stands for `summary[0].summary_text` of the pipeline output. -/
def summarize_text (summarizer : ModelCall → String) (text : String)
    (max_length min_length : Nat) : String :=
  if text ≠ "" ∧ min_length < text.length then
    summarizer ⟨text, max_length, min_length, true⟩
  else text

/-- An `atom:author` node: `name` is `none` when the node has no `atom:name`
child, and `some t` when the child exists with text `t` (`t = none` for an
empty element). -/
structure AuthorElem where
  name : Option (Option String)
deriving DecidableEq

/-- An `atom:link` node with `rel="alternate"`: `href` is its `href`
attribute, when present. -/
structure LinkElem where
  href : Option String
deriving DecidableEq

/-- One `atom:entry` node. Each of `title`, `summary`, `published` is `none`
when the child node is absent, and `some t` when present with text `t`.
`linkAlt` is the first `atom:link[@rel="alternate"]` child, if any. -/
structure Entry where
  title : Option (Option String)
  summary : Option (Option String)
  authors : List AuthorElem
  published : Option (Option String)
  linkAlt : Option LinkElem
deriving DecidableEq

/-- A parsed feed document: the `atom:entry` nodes in document order. -/
structure Feed where
  entries : List Entry
deriving DecidableEq

/-- One row of the resulting DataFrame (source lines 135-141). -/
structure Record where
  title : Option String
  summary : Option String
  authors : String
  published : Option String
  link : Option String
deriving DecidableEq

/-- Author name extraction, `author.find(atom:name).text` (source line 123): `none`
models the `AttributeError` raised when the `atom:name` child is absent, and
also the `TypeError` that `", ".join` raises later when the child exists but
has no text. -/
def getAuthorName (a : AuthorElem) : Option String :=
  Option.join a.name

/-- Extraction of the alternate-link href attribute, guarded by the
`is not None` check (source line 125): an absent node yields field value
`None`; a present node without an `href` attribute raises `KeyError`,
modelled by `none`. -/
def getLink (l : Option LinkElem) : Option (Option String) :=
  match l with
  | none => some none
  | some el =>
    match el.href with
    | none => none
    | some h => some (some h)

/-- Evaluate `f` over a list, failing if any element fails: the shape of a
Python list comprehension whose body can raise. -/
def traverseOpt {α β : Type} (f : α → Option β) : List α → Option (List β)
  | [] => some []
  | a :: l =>
    match f a, traverseOpt f l with
    | some b, some bs => some (b :: bs)
    | _, _ => none

/-- Source line 132, `concise_summary = summarize_text(summary) if summary else None`
(source line 132): Python truthiness, so `None` and `""` both pass through as
`None`. -/
def conciseSummary (summarizer : ModelCall → String) (s : Option String) : Option String :=
  match s with
  | none => none
  | some t => if t = "" then none else some (summarize_text summarizer t 140 30)

/-- The loop body of `parse_arxiv_to_polars_and_summarize` for one entry
(source lines 119-141): extract the five fields and build the row dict.
`none` models the loop raising on this entry. -/
def parseEntry (summarizer : ModelCall → String) (e : Entry) : Option Record :=
  match traverseOpt getAuthorName e.authors, getLink e.linkAlt with
  | some names, some link =>
    some ⟨Option.join e.title, conciseSummary summarizer (Option.join e.summary),
          String.intercalate ", " names, Option.join e.published, link⟩
  | _, _ => none

/-- One step of the `all_summaries` accumulation (source lines 128-129):
`if summary: all_summaries += " " + summary.strip()`. -/
def addSummary (acc : String) (e : Entry) : String :=
  match Option.join e.summary with
  | none => acc
  | some s => if s = "" then acc else acc ++ " " ++ pyStrip s

/-- The final value of the `all_summaries` accumulator (source lines 117-129). -/
def allSummaries (feed : Feed) : String :=
  feed.entries.foldl addSummary ""

/-- Source line 147, `overall_summary = summarize_text(all_summaries) if all_summaries else
"No summaries available."` (source line 147). -/
def overallSummary (summarizer : ModelCall → String) (feed : Feed) : String :=
  if allSummaries feed = "" then "No summaries available."
  else summarize_text summarizer (allSummaries feed) 140 30

/-- Key comparison used by the descending sort on `published`: `none` (null)
groups first, as polars places nulls first by default; string keys compare
code-point lexicographically, larger first. `pubLeB a b` says a record with
key `a` may come no later than one with key `b`. -/
def pubLeB (a b : Option String) : Bool :=
  match a, b with
  | none, _ => true
  | some _, none => false
  | some x, some y => ! strLt x y

/-- The comparison `pubLeB` lifted to records. -/
def recBefore (a b : Record) : Bool := pubLeB a.published b.published

/-- The comparison `recBefore` as a relation. -/
def recBeforeP (a b : Record) : Prop := recBefore a b = true

instance : DecidableRel recBeforeP :=
  fun a b => inferInstanceAs (Decidable (recBefore a b = true))

/-- Insert a record into a list sorted by `recBefore`. -/
def orderedInsertRec (a : Record) : List Record → List Record
  | [] => [a]
  | b :: l => if recBefore a b then a :: b :: l else b :: orderedInsertRec a l

/-- One implementation of the polars sort contract: insertion sort by
`recBefore`. -/
def sortRecords : List Record → List Record
  | [] => []
  | b :: l => orderedInsertRec b (sortRecords l)

/-- The sort step `pl.DataFrame(entries).sort(published, descending=True)` (source
line 144). On a non-empty record list the DataFrame has a `published` column
and the call returns the rows sorted by it, descending. On the empty list
`pl.DataFrame([])` has no columns, so `sort(published)` raises
`ColumnNotFoundError`; that raise is modelled by `none`. -/
def polarsSortByPublishedDesc (recs : List Record) : Option (List Record) :=
  match recs with
  | [] => none
  | _ :: _ => some (sortRecords recs)

/-- What `DataFrame.sort(published, descending=True)` guarantees about its
output (with `maintain_order` left at its default `False`): some permutation
of the input rows that is pairwise ordered by the key. Nothing constrains the
relative order of rows with equal keys. -/
def polarsSortSpec (input output : List Record) : Prop :=
  input.Perm output ∧ output.Pairwise recBeforeP

/-- The function `parse_arxiv_to_polars_and_summarize` (source lines 97-149): parse every
entry, sort the rows by `published` descending, and compute the overall
summary. `none` models the function raising. -/
def parse_arxiv_to_polars_and_summarize (summarizer : ModelCall → String)
    (feed : Feed) : Option (List Record × String) :=
  match traverseOpt (parseEntry summarizer) feed.entries with
  | none => none
  | some recs =>
    match polarsSortByPublishedDesc recs with
    | none => none
    | some df => some (df, overallSummary summarizer feed)

/-- The trimmed abstract the accumulation loop appends for an entry, if any. -/
def entryAbstract (e : Entry) : Option String :=
  match Option.join e.summary with
  | none => none
  | some s => if s = "" then none else some (pyStrip s)

/-- The trimmed non-empty abstracts of a feed, in document order. -/
def abstractsOf (feed : Feed) : List String :=
  feed.entries.filterMap entryAbstract

/-- Modelled from the spec: joining a list of strings "by single spaces",
with no leading or trailing separator. -/
def joinSpace : List String → String
  | [] => ""
  | [s] => s
  | s :: l => s ++ " " ++ joinSpace l

/-- Modelled from the spec: the aggregate string claim C7 predicts, the
whitespace-trimmed abstracts in document order joined by single spaces. -/
def specAggregate (feed : Feed) : String := joinSpace (abstractsOf feed)

/-- Does this author node have a name child whose text is a string? The loop
raises on any author for which this is false. -/
def hasNameText (a : AuthorElem) : Bool :=
  match a.name with
  | some (some _) => true
  | _ => false

/-- The name text of an author node (meaningful when `hasNameText`). -/
def authorNameText (a : AuthorElem) : String :=
  Option.getD (Option.join a.name) ""

/-- Python truthiness of the raw abstract text of an entry: present and non-empty. -/
def hasNonEmptyAbstract (e : Entry) : Bool :=
  match Option.join e.summary with
  | none => false
  | some s => ! (s == "")

/-! Concrete inputs used to instantiate the theorems below. -/

/-- A concrete summarization oracle: echoes the text of the call. -/
def stubSummarizer : ModelCall → String := fun call => call.text

/-- A feed with no `atom:entry` nodes. -/
def emptyFeed : Feed := ⟨[]⟩

/-- Three entries with the published timestamps of the end-to-end example of the spec, in document order January, March, February. -/
def feedThree : Feed :=
  ⟨[⟨some (some "January article"), none, [], some (some "2024-01-01T00:00:00Z"), none⟩,
    ⟨some (some "March article"), none, [], some (some "2024-03-01T00:00:00Z"), none⟩,
    ⟨some (some "February article"), none, [], some (some "2024-02-01T00:00:00Z"), none⟩]⟩

/-- The row for the January entry of `feedThree`. -/
def recJan : Record := ⟨some "January article", none, "", some "2024-01-01T00:00:00Z", none⟩

/-- The row for the March entry of `feedThree`. -/
def recMar : Record := ⟨some "March article", none, "", some "2024-03-01T00:00:00Z", none⟩

/-- The row for the February entry of `feedThree`. -/
def recFeb : Record := ⟨some "February article", none, "", some "2024-02-01T00:00:00Z", none⟩

/-- One entry whose `atom:summary` node is present but empty, so the entry has
no non-empty abstract. -/
def feedNoAbs : Feed :=
  ⟨[⟨some (some "T"), some none, [⟨some (some "Ann")⟩], some (some "2024-05-01T00:00:00Z"),
     some ⟨some "http://example.org/x"⟩⟩]⟩

/-- The row for the entry of `feedNoAbs`. -/
def recNoAbs : Record :=
  ⟨some "T", none, "Ann", some "2024-05-01T00:00:00Z", some "http://example.org/x"⟩

/-- An entry with two author nodes. -/
def entryTwoAuthors : Entry :=
  ⟨some (some "T2"), none, [⟨some (some "Alice A")⟩, ⟨some (some "Bob B")⟩],
   some (some "2024-06-01T00:00:00Z"), none⟩

/-- An entry with every optional node absent and no authors. -/
def entryBare : Entry := ⟨none, none, [], none, none⟩

/-- A feed with a single entry whose abstract text is `"abc"`. -/
def feedOneAbs : Feed := ⟨[⟨none, some (some "abc"), [], none, none⟩]⟩

/-- The row for the entry of `feedOneAbs`. -/
def recOneAbs : Record := ⟨none, some "abc", "", none, none⟩

/-- Two entries with equal published timestamps and distinct titles, in
document order A then B. -/
def feedTie : Feed :=
  ⟨[⟨some (some "A"), none, [], some (some "2024-04-01T00:00:00Z"), none⟩,
    ⟨some (some "B"), none, [], some (some "2024-04-01T00:00:00Z"), none⟩]⟩

/-- The row for the first entry of `feedTie`. -/
def recTieA : Record := ⟨some "A", none, "", some "2024-04-01T00:00:00Z", none⟩

/-- The row for the second entry of `feedTie`. -/
def recTieB : Record := ⟨some "B", none, "", some "2024-04-01T00:00:00Z", none⟩

/-- A well-formed feed whose single entry has one author node without an
`atom:name` child. -/
def feedNoName : Feed :=
  ⟨[⟨some (some "T"), none, [⟨none⟩], some (some "2024-07-01T00:00:00Z"), none⟩]⟩

/-- The row produced for `entryTwoAuthors`. -/
def recTwoAuthors : Record :=
  ⟨some "T2", none, "Alice A, Bob B", some "2024-06-01T00:00:00Z", none⟩

/-! Helper lemmas: the string order, the sort, and the accumulator. -/

theorem charListLt_iff : ∀ {as bs : List Char}, charListLt as bs = true ↔ List.Lex (· < ·) as bs := by
  intro as
  induction as with
  | nil =>
    intro bs
    cases bs with
    | nil =>
      simp only [charListLt, Bool.false_eq_true, false_iff]
      intro h
      cases h
    | cons b t =>
      simp only [charListLt, true_iff]
      exact List.Lex.nil
  | cons a t ih =>
    intro bs
    cases bs with
    | nil =>
      simp only [charListLt, Bool.false_eq_true, false_iff]
      intro h
      cases h
    | cons b u =>
      simp only [charListLt]
      by_cases h1 : a < b
      · simp only [if_pos h1, true_iff]
        exact List.Lex.rel h1
      · by_cases h2 : b < a
        · simp only [if_neg h1, if_pos h2, Bool.false_eq_true, false_iff]
          intro h
          cases h with
          | cons h3 => exact absurd h2 (lt_irrefl a)
          | rel h3 => exact h1 h3
        · simp only [if_neg h1, if_neg h2]
          have hab : a = b := le_antisymm (not_lt.mp h2) (not_lt.mp h1)
          subst hab
          rw [ih]
          constructor
          · intro h
            exact List.Lex.cons h
          · intro h
            cases h with
            | cons h3 => exact h3
            | rel h3 => exact absurd h3 h1

theorem strLt_iff {x y : String} : strLt x y = true ↔ x < y := by
  rw [String.lt_iff_toList_lt]
  exact charListLt_iff

theorem strLt_false_le {x y : String} (h : strLt x y = false) : y ≤ x := by
  intro hlt
  have ht : strLt x y = true := strLt_iff.mpr hlt
  rw [h] at ht
  exact Bool.false_ne_true ht

theorem strLt_asymm {x y : String} (h : strLt x y = true) : strLt y x = false := by
  cases hyx : strLt y x with
  | false => rfl
  | true => exact absurd (strLt_iff.mp hyx) (lt_asymm (strLt_iff.mp h))

theorem strLt_false_trans {x y z : String} (h1 : strLt x y = false) (h2 : strLt y z = false) :
    strLt x z = false := by
  cases hxz : strLt x z with
  | false => rfl
  | true =>
    exact absurd (strLt_iff.mp hxz)
      (not_lt.mpr (le_trans (strLt_false_le h2) (strLt_false_le h1)))

theorem pubLeB_total (a b : Option String) : pubLeB a b = true ∨ pubLeB b a = true := by
  cases a with
  | none => exact Or.inl rfl
  | some x =>
    cases b with
    | none => exact Or.inr rfl
    | some y =>
      cases hxy : strLt x y with
      | false => exact Or.inl (by simp [pubLeB, hxy])
      | true => exact Or.inr (by simp [pubLeB, strLt_asymm hxy])

theorem pubLeB_trans {a b c : Option String} (h1 : pubLeB a b = true)
    (h2 : pubLeB b c = true) : pubLeB a c = true := by
  cases a with
  | none => rfl
  | some x =>
    cases c with
    | none =>
      cases b with
      | none => exact absurd h1 (by simp [pubLeB])
      | some y => exact absurd h2 (by simp [pubLeB])
    | some z =>
      cases b with
      | none => exact absurd h1 (by simp [pubLeB])
      | some y =>
        simp only [pubLeB, Bool.not_eq_true'] at h1 h2 ⊢
        exact strLt_false_trans h1 h2

theorem recBefore_total (a b : Record) : recBefore a b = true ∨ recBefore b a = true :=
  pubLeB_total _ _

theorem recBefore_trans {a b c : Record} (h1 : recBefore a b = true)
    (h2 : recBefore b c = true) : recBefore a c = true :=
  pubLeB_trans h1 h2

theorem orderedInsertRec_perm (a : Record) :
    ∀ l : List Record, (orderedInsertRec a l).Perm (a :: l) := by
  intro l
  induction l with
  | nil => exact List.Perm.refl _
  | cons b t ih =>
    simp only [orderedInsertRec]
    by_cases h : recBefore a b = true
    · rw [if_pos h]
    · rw [if_neg h]
      exact (ih.cons b).trans (List.Perm.swap a b t)

theorem sortRecords_perm : ∀ l : List Record, (sortRecords l).Perm l := by
  intro l
  induction l with
  | nil => exact List.Perm.refl _
  | cons b t ih =>
    simp only [sortRecords]
    exact (orderedInsertRec_perm b (sortRecords t)).trans (ih.cons b)

theorem mem_orderedInsertRec {x a : Record} {l : List Record}
    (h : x ∈ orderedInsertRec a l) : x = a ∨ x ∈ l := by
  have hm := (orderedInsertRec_perm a l).mem_iff.mp h
  simpa using hm

theorem pairwise_orderedInsertRec {a : Record} :
    ∀ {l : List Record}, l.Pairwise recBeforeP → (orderedInsertRec a l).Pairwise recBeforeP := by
  intro l
  induction l with
  | nil =>
    intro _
    simp [orderedInsertRec]
  | cons b t ih =>
    intro hp
    rcases List.pairwise_cons.mp hp with ⟨hb, ht⟩
    simp only [orderedInsertRec]
    by_cases h : recBefore a b = true
    · rw [if_pos h]
      refine List.pairwise_cons.mpr ⟨?_, hp⟩
      intro y hy
      rcases List.mem_cons.mp hy with rfl | hyt
      · exact h
      · exact recBefore_trans h (hb y hyt)
    · rw [if_neg h]
      refine List.pairwise_cons.mpr ⟨?_, ih ht⟩
      intro y hy
      rcases mem_orderedInsertRec hy with rfl | hyt
      · rcases recBefore_total b y with hba | hab
        · exact hba
        · exact absurd hab h
      · exact hb y hyt

theorem pairwise_sortRecords : ∀ l : List Record, (sortRecords l).Pairwise recBeforeP := by
  intro l
  induction l with
  | nil => exact List.Pairwise.nil
  | cons b t ih => exact pairwise_orderedInsertRec ih

theorem parseEntry_eq {summarizer : ModelCall → String} {e : Entry} {ns : List String}
    {lk : Option String} (hns : traverseOpt getAuthorName e.authors = some ns)
    (hlk : getLink e.linkAlt = some lk) :
    parseEntry summarizer e =
      some ⟨Option.join e.title, conciseSummary summarizer (Option.join e.summary),
            String.intercalate ", " ns, Option.join e.published, lk⟩ := by
  unfold parseEntry
  rw [hns, hlk]

theorem parseEntry_some {summarizer : ModelCall → String} {e : Entry} {r : Record}
    (h : parseEntry summarizer e = some r) :
    ∃ ns lk, traverseOpt getAuthorName e.authors = some ns ∧ getLink e.linkAlt = some lk ∧
      r = ⟨Option.join e.title, conciseSummary summarizer (Option.join e.summary),
           String.intercalate ", " ns, Option.join e.published, lk⟩ := by
  unfold parseEntry at h
  cases hns : traverseOpt getAuthorName e.authors with
  | none =>
    rw [hns] at h
    simp at h
  | some ns =>
    cases hlk : getLink e.linkAlt with
    | none =>
      rw [hns, hlk] at h
      simp at h
    | some lk =>
      rw [hns, hlk] at h
      exact ⟨ns, lk, rfl, rfl, (Option.some.inj h).symm⟩

theorem traverseOpt_names_eq : ∀ {l : List AuthorElem}, l.all hasNameText = true →
    traverseOpt getAuthorName l = some (l.map authorNameText) := by
  intro l
  induction l with
  | nil => intro _; rfl
  | cons a t ih =>
    intro h
    simp only [List.all_cons, Bool.and_eq_true] at h
    obtain ⟨ha, ht⟩ := h
    have hex : ∃ s, a.name = some (some s) := by
      unfold hasNameText at ha
      cases hn : a.name with
      | none =>
        rw [hn] at ha
        simp at ha
      | some o =>
        cases o with
        | none =>
          rw [hn] at ha
          simp at ha
        | some s => exact ⟨s, rfl⟩
    obtain ⟨s, hs⟩ := hex
    simp [traverseOpt, getAuthorName, hs, ih ht, authorNameText]

theorem addSummary_append (x y : String) (e : Entry) :
    addSummary (x ++ y) e = x ++ addSummary y e := by
  unfold addSummary
  cases Option.join e.summary with
  | none => rfl
  | some s =>
    by_cases hs : s = ""
    · simp [hs]
    · simp [hs, String.append_assoc]

theorem foldl_addSummary_append :
    ∀ (l : List Entry) (x y : String), l.foldl addSummary (x ++ y) = x ++ l.foldl addSummary y := by
  intro l
  induction l with
  | nil => intro x y; rfl
  | cons e t ih =>
    intro x y
    simp only [List.foldl_cons]
    rw [addSummary_append, ih]

theorem foldl_addSummary_start (l : List Entry) (x : String) :
    l.foldl addSummary x = x ++ l.foldl addSummary "" := by
  have h := foldl_addSummary_append l x ""
  rwa [String.append_empty] at h

theorem addSummary_no_abstract {e : Entry} (h : hasNonEmptyAbstract e = false) (acc : String) :
    addSummary acc e = acc := by
  unfold addSummary
  unfold hasNonEmptyAbstract at h
  cases hj : Option.join e.summary with
  | none => rfl
  | some s =>
    rw [hj] at h
    simp only [Bool.not_eq_false', beq_iff_eq] at h
    simp [h]

theorem foldl_addSummary_all_empty :
    ∀ {l : List Entry}, l.all (fun e => ! hasNonEmptyAbstract e) = true →
      l.foldl addSummary "" = "" := by
  intro l
  induction l with
  | nil => intro _; rfl
  | cons e t ih =>
    intro h
    simp only [List.all_cons, Bool.and_eq_true] at h
    obtain ⟨he, ht⟩ := h
    have he' : hasNonEmptyAbstract e = false := by
      cases hx : hasNonEmptyAbstract e with
      | false => rfl
      | true =>
        rw [hx] at he
        simp at he
    simp only [List.foldl_cons]
    rw [addSummary_no_abstract he']
    exact ih ht

theorem foldl_addSummary_join :
    ∀ l : List Entry, l.foldl addSummary "" =
      (if l.filterMap entryAbstract = [] then ""
       else " " ++ joinSpace (l.filterMap entryAbstract)) := by
  intro l
  induction l with
  | nil => rfl
  | cons e t ih =>
    simp only [List.foldl_cons]
    cases hj : Option.join e.summary with
    | none =>
      have h1 : addSummary "" e = "" := by
        unfold addSummary
        rw [hj]
      have h2 : entryAbstract e = none := by
        unfold entryAbstract
        rw [hj]
      rw [h1, ih]
      simp [List.filterMap_cons, h2]
    | some s =>
      by_cases hs : s = ""
      · have h1 : addSummary "" e = "" := by
          unfold addSummary
          rw [hj]
          simp [hs]
        have h2 : entryAbstract e = none := by
          unfold entryAbstract
          rw [hj]
          simp [hs]
        rw [h1, ih]
        simp [List.filterMap_cons, h2]
      · have h1 : addSummary "" e = " " ++ pyStrip s := by
          unfold addSummary
          rw [hj]
          simp [hs]
        have h2 : entryAbstract e = some (pyStrip s) := by
          unfold entryAbstract
          rw [hj]
          simp [hs]
        have h3 : (e :: t).filterMap entryAbstract = pyStrip s :: t.filterMap entryAbstract := by
          simp [List.filterMap_cons, h2]
        rw [h1, foldl_addSummary_start, ih, h3]
        cases hA : t.filterMap entryAbstract with
        | nil =>
          simp only [if_pos rfl, String.append_empty]
          simp [joinSpace]
        | cons b u =>
          simp only [if_neg (List.cons_ne_nil b u), if_neg (List.cons_ne_nil (pyStrip s) (b :: u))]
          simp [joinSpace, String.append_assoc]

theorem parse_some_inv {summarizer : ModelCall → String} {feed : Feed} {df : List Record}
    {ov : String}
    (h : parse_arxiv_to_polars_and_summarize summarizer feed = some (df, ov)) :
    ∃ recs, traverseOpt (parseEntry summarizer) feed.entries = some recs ∧ recs ≠ [] ∧
      df = sortRecords recs ∧ ov = overallSummary summarizer feed := by
  unfold parse_arxiv_to_polars_and_summarize at h
  cases htr : traverseOpt (parseEntry summarizer) feed.entries with
  | none =>
    rw [htr] at h
    simp at h
  | some recs =>
    rw [htr] at h
    cases recs with
    | nil => simp [polarsSortByPublishedDesc] at h
    | cons r0 rest =>
      simp only [polarsSortByPublishedDesc, Option.some.injEq, Prod.mk.injEq] at h
      obtain ⟨h1, h2⟩ := h
      exact ⟨r0 :: rest, rfl, List.cons_ne_nil r0 rest, h1.symm, h2.symm⟩

/-! The claims. -/

/-- Claim C1: the claim asserts that a well-formed feed with N entries, N = 0
included, yields a table of exactly N records. The code breaks at N = 0: the
entry loop leaves `entries == []`, `pl.DataFrame([])` has no columns, and
`.sort(published, descending=True)` raises `ColumnNotFoundError`, so the
function raises instead of returning an empty table. This theorem evaluates
the embedded function at the failing input. -/
theorem parse_empty_feed_fails :
    ∀ summarizer : ModelCall → String,
      parse_arxiv_to_polars_and_summarize summarizer emptyFeed = none :=
  fun _ => rfl

/-- Claim C2: whenever `parse_arxiv_to_polars_and_summarize` returns, the
record list is sorted by `published` descending: for adjacent records whose
published fields are strings, the later string is ≤ the earlier one in the
lexicographic string order. -/
theorem parse_output_sorted_published_desc :
    ∀ (summarizer : ModelCall → String) (feed : Feed) (df : List Record) (ov : String),
      parse_arxiv_to_polars_and_summarize summarizer feed = some (df, ov) →
      List.Chain' (fun a b : Record =>
        ∀ x y : String, a.published = some x → b.published = some y → y ≤ x) df := by
  intro summarizer feed df ov h
  obtain ⟨recs, htr, hne, hdf, hov⟩ := parse_some_inv h
  subst hdf
  have hc : (sortRecords recs).Chain' recBeforeP := (pairwise_sortRecords recs).chain'
  refine hc.imp ?_
  intro a b hab x y hx hy
  have hpub : pubLeB a.published b.published = true := hab
  rw [hx, hy] at hpub
  simp only [pubLeB, Bool.not_eq_true'] at hpub
  exact strLt_false_le hpub

/-- Witness for C2 at the three-timestamp example of the spec: the output lists
March, February, January. -/
theorem parse_output_sorted_published_desc_check :
    parse_arxiv_to_polars_and_summarize stubSummarizer feedThree =
      some ([recMar, recFeb, recJan], "No summaries available.") ∧
    List.Chain' (fun a b : Record =>
      ∀ x y : String, a.published = some x → b.published = some y → y ≤ x)
      [recMar, recFeb, recJan] :=
  ⟨by decide,
   parse_output_sorted_published_desc stubSummarizer feedThree
     [recMar, recFeb, recJan] "No summaries available." (by decide)⟩

/-- Claim C3: `fetch_arxiv_results` never raises; it returns the decoded body
verbatim on success and the marker string `"An error occurred: "` followed by
the failure description otherwise. -/
theorem fetch_marker_or_verbatim :
    ∀ (net : String → Except String String) (search_term : String) (start max_results : Nat),
      (∃ body, net (buildUrl search_term start max_results) = Except.ok body ∧
        fetch_arxiv_results net search_term start max_results = body) ∨
      (∃ msg, net (buildUrl search_term start max_results) = Except.error msg ∧
        fetch_arxiv_results net search_term start max_results = "An error occurred: " ++ msg) := by
  intro net term start maxr
  unfold fetch_arxiv_results
  cases hn : net (buildUrl term start maxr) with
  | ok body => exact Or.inl ⟨body, rfl, rfl⟩
  | error msg => exact Or.inr ⟨msg, rfl, rfl⟩

/-- Claim C4: `summarize_text` passes its input through unchanged exactly when
the input is empty or no longer than `min_length` (default 30); otherwise it
returns the model output for the call with `max_length=140`, `min_length=30`
and truncation enabled. -/
theorem summarize_text_passthrough :
    ∀ (summarizer : ModelCall → String) (text : String),
      ((text = "" ∨ text.length ≤ 30) → summarize_text summarizer text 140 30 = text) ∧
      (text ≠ "" → 30 < text.length →
        summarize_text summarizer text 140 30 = summarizer ⟨text, 140, 30, true⟩) := by
  intro summarizer text
  constructor
  · intro h
    unfold summarize_text
    rcases h with h | h
    · rw [if_neg (fun hc => hc.1 h)]
    · rw [if_neg (fun hc => absurd hc.2 (not_lt.mpr h))]
  · intro h1 h2
    unfold summarize_text
    rw [if_pos ⟨h1, h2⟩]

/-- Witness for C4: a short input passes through; a 31-character input goes to
the model with the default bounds. -/
theorem summarize_text_passthrough_check :
    summarize_text stubSummarizer "short" 140 30 = "short" ∧
    summarize_text stubSummarizer "aaaaaaaaaaaaaaaaaaaaaaaaaaaaaaa" 140 30 =
      stubSummarizer ⟨"aaaaaaaaaaaaaaaaaaaaaaaaaaaaaaa", 140, 30, true⟩ :=
  ⟨(summarize_text_passthrough stubSummarizer "short").1 (Or.inr (by decide)),
   (summarize_text_passthrough stubSummarizer "aaaaaaaaaaaaaaaaaaaaaaaaaaaaaaa").2
     (by decide) (by decide)⟩

/-- Claim C5: when no entry has a non-empty abstract, the overall summary the
function returns is the fixed fallback string; the conclusion holds for every
summarization oracle, so the model is not consulted for the aggregate. -/
theorem overall_fallback_no_abstracts :
    ∀ (summarizer : ModelCall → String) (feed : Feed),
      feed.entries.all (fun e => ! hasNonEmptyAbstract e) = true →
      ∀ (df : List Record) (ov : String),
        parse_arxiv_to_polars_and_summarize summarizer feed = some (df, ov) →
        ov = "No summaries available." := by
  intro summarizer feed hall df ov h
  obtain ⟨recs, htr, hne, hdf, hov⟩ := parse_some_inv h
  rw [hov]
  unfold overallSummary
  rw [if_pos]
  unfold allSummaries
  exact foldl_addSummary_all_empty hall

/-- Witness for C5: a feed whose single entry has an empty abstract node. -/
theorem overall_fallback_no_abstracts_check :
    parse_arxiv_to_polars_and_summarize stubSummarizer feedNoAbs =
      some ([recNoAbs], "No summaries available.") ∧
    "No summaries available." = "No summaries available." :=
  ⟨by decide,
   overall_fallback_no_abstracts stubSummarizer feedNoAbs (by decide)
     [recNoAbs] "No summaries available." (by decide)⟩

/-- Claim C6: the `authors` field of a produced record is the comma-space join
of the author names in document order; zero authors yield the empty string. -/
theorem authors_comma_joined :
    ∀ (summarizer : ModelCall → String) (e : Entry) (r : Record),
      parseEntry summarizer e = some r → e.authors.all hasNameText = true →
      r.authors = String.intercalate ", " (e.authors.map authorNameText) ∧
      (e.authors.map authorNameText).length = e.authors.length ∧
      (e.authors = [] → r.authors = "") := by
  intro summarizer e r h hall
  obtain ⟨ns, lk, hns, hlk, hr⟩ := parseEntry_some h
  rw [traverseOpt_names_eq hall] at hns
  have hns2 : ns = e.authors.map authorNameText := (Option.some.inj hns).symm
  subst hr
  refine ⟨?_, List.length_map _ _, ?_⟩
  · show String.intercalate ", " ns = _
    rw [hns2]
  · intro hnil
    show String.intercalate ", " ns = ""
    rw [hns2, hnil]
    rfl

/-- Witness for C6 at an entry with two author nodes. -/
theorem authors_comma_joined_check :
    recTwoAuthors.authors =
      String.intercalate ", " (entryTwoAuthors.authors.map authorNameText) ∧
    (entryTwoAuthors.authors.map authorNameText).length = entryTwoAuthors.authors.length ∧
    (entryTwoAuthors.authors = [] → recTwoAuthors.authors = "") :=
  authors_comma_joined stubSummarizer entryTwoAuthors recTwoAuthors (by decide) (by decide)

/-- Claim C7, counterexample: for a feed with one abstract `"abc"` the
accumulated aggregate is `" abc"`, not the space-join `"abc"` the claim
predicts, and that leading-space string is what reaches the overall summary. -/
theorem aggregate_leading_space_cex :
    allSummaries feedOneAbs = " abc" ∧ specAggregate feedOneAbs = "abc" ∧
    allSummaries feedOneAbs ≠ specAggregate feedOneAbs ∧
    parse_arxiv_to_polars_and_summarize stubSummarizer feedOneAbs =
      some ([recOneAbs], " abc") :=
  ⟨by decide, by decide, by decide, by decide⟩

/-- Claim C7 as amended: the aggregate equals the trimmed non-empty abstracts
in document order joined by single spaces, with one leading space (empty when
no entry has a non-empty abstract). -/
theorem aggregate_is_space_joined_with_leading_space :
    ∀ feed : Feed, allSummaries feed =
      (if abstractsOf feed = [] then "" else " " ++ joinSpace (abstractsOf feed)) := by
  intro feed
  unfold allSummaries abstractsOf
  exact foldl_addSummary_join feed.entries

/-- Claim C8: an entry whose title, summary, published or alternate-link node
is absent still yields a record, with the corresponding field absent. -/
theorem missing_nodes_recorded_absent :
    ∀ (summarizer : ModelCall → String) (e : Entry),
      e.authors.all hasNameText = true → getLink e.linkAlt ≠ none →
      ∃ r, parseEntry summarizer e = some r ∧
        (e.title = none → r.title = none) ∧
        (e.summary = none → r.summary = none) ∧
        (e.published = none → r.published = none) ∧
        (e.linkAlt = none → r.link = none) := by
  intro summarizer e hall hlk
  obtain ⟨lk, hlkeq⟩ : ∃ lk, getLink e.linkAlt = some lk := by
    cases hx : getLink e.linkAlt with
    | none => exact absurd hx hlk
    | some lk => exact ⟨lk, rfl⟩
  refine ⟨_, parseEntry_eq (traverseOpt_names_eq hall) hlkeq, ?_, ?_, ?_, ?_⟩
  · intro ht
    show Option.join e.title = none
    rw [ht]
    rfl
  · intro hs
    show conciseSummary summarizer (Option.join e.summary) = none
    rw [hs]
    rfl
  · intro hp
    show Option.join e.published = none
    rw [hp]
    rfl
  · intro hl
    show lk = none
    rw [hl] at hlkeq
    exact (Option.some.inj hlkeq).symm

/-- Witness for C8 at an entry with every optional node absent. -/
theorem missing_nodes_recorded_absent_check :
    ∃ r, parseEntry stubSummarizer entryBare = some r ∧
      (entryBare.title = none → r.title = none) ∧
      (entryBare.summary = none → r.summary = none) ∧
      (entryBare.published = none → r.published = none) ∧
      (entryBare.linkAlt = none → r.link = none) :=
  missing_nodes_recorded_absent stubSummarizer entryBare (by decide) (by decide)

/-- Claim C9, counterexample: `feedTie` parses to two distinct records with
equal published timestamps, in feed order A then B; the reversed output B, A
also satisfies everything the polars sort call guarantees (`maintain_order`
is left at `False`), so the code does not guarantee feed order on ties. -/
theorem published_tie_may_reorder :
    traverseOpt (parseEntry stubSummarizer) feedTie.entries = some [recTieA, recTieB] ∧
    recTieA.published = recTieB.published ∧ recTieA ≠ recTieB ∧
    polarsSortSpec [recTieA, recTieB] [recTieB, recTieA] :=
  ⟨by decide, by decide, by decide, List.Perm.swap recTieB recTieA [], by decide⟩

/-- Claim C9 as amended: the returned table is some permutation of the parsed
records that is sorted by `published` descending; the relative order of
records with equal timestamps is not specified. -/
theorem parse_output_meets_sort_contract :
    ∀ (summarizer : ModelCall → String) (feed : Feed) (df : List Record) (ov : String),
      parse_arxiv_to_polars_and_summarize summarizer feed = some (df, ov) →
      ∃ recs, traverseOpt (parseEntry summarizer) feed.entries = some recs ∧
        polarsSortSpec recs df := by
  intro summarizer feed df ov h
  obtain ⟨recs, htr, hne, hdf, hov⟩ := parse_some_inv h
  subst hdf
  exact ⟨recs, htr, (sortRecords_perm recs).symm, pairwise_sortRecords recs⟩

/-- Witness for the amended C9 at `feedTie`. -/
theorem parse_output_meets_sort_contract_check :
    ∃ recs, traverseOpt (parseEntry stubSummarizer) feedTie.entries = some recs ∧
      polarsSortSpec recs [recTieA, recTieB] :=
  parse_output_meets_sort_contract stubSummarizer feedTie [recTieA, recTieB]
    "No summaries available." (by decide)

/-- Claim C10: a feed whose entry has an author node without a name child
makes the whole parse raise (`.text` on the `None` result of `find`), for
every summarization oracle. -/
theorem author_without_name_fails :
    ∀ summarizer : ModelCall → String,
      parse_arxiv_to_polars_and_summarize summarizer feedNoName = none :=
  fun _ => rfl

end ArxivSummarizer
